import Mathlib

/-!
Shallow embedding of the fetch-orchestration core of `Stocks_AV_GUI_v3.py`
(repository `cruz-py/Financial-Data`): the disk-backed cache utilities, the
Alpha Vantage response classification, the per-statement fetch loop of
`fetch_financial_statements`, the year-end price lookup, and the input
validation helpers, together with theorems settling the frozen claims.

Modelling conventions:
* JSON report objects (`StatementRow`s) are association lists of
  string-valued fields; `fiscalDateEnding` is looked up by name.  ISO date
  strings compare with the lexicographic string order, exactly as pandas
  compares object columns.
* The filesystem visible to the cache utilities is a map from file names to
  an optional `CacheFile` (modification time plus parse result of the JSON
  content; an unparseable file carries `none`).
* Network I/O is an oracle `Nat → RequestOutcome` giving the result of the
  i-th HTTP call for a statement function: either a decoded JSON body or a
  transport failure (timeout / connection error / malformed response).
* Callback side effects that the claims mention (progress values, sleeps)
  are collected in an `Event` trace; log lines are not modelled, as no
  frozen claim concerns their content.
* `time.sleep` does not advance the modelled clock `now`; no claim depends
  on intra-run time passage.
-/

namespace FinData

/-! ### Configuration constants (source lines 28-33, 41-42) -/

def RATE_LIMIT_SLEEP : Nat := 60

def NORMAL_SLEEP : Nat := 12

def MAX_RETRIES : Nat := 3

def CACHE_TTL_HOURS : Nat := 24

def CACHE_MAX_AGE_DAYS : Nat := 7

/-! ### Statement rows and data-frame operations -/

/-- A provider report object: named string fields (`StatementRow`). -/
abbrev Row := List (String × String)

/-- The `fiscalDateEnding` field of a row, when present. -/
def rowDate (r : Row) : Option String := r.lookup "fiscalDateEnding"

/-- Whether the row carries a `fiscalDateEnding` field. -/
def rowHasDate (r : Row) : Bool := (rowDate r).isSome

/-- Comparison used by `df.sort_values("fiscalDateEnding")`: rows compare by
their date string; rows whose date is missing sort after all dated rows,
matching pandas' `na_position="last"`. -/
def dateLe (a b : Row) : Bool :=
  match rowDate a, rowDate b with
  | some da, some db => decide (da ≤ db)
  | some _, none => true
  | none, none => true
  | none, some _ => false

/-- `dateLe` as a decidable relation (for `List.insertionSort`). -/
def dateRel (a b : Row) : Prop := dateLe a b = true

instance : DecidableRel dateRel := fun a b => inferInstanceAs (Decidable (_ = true))

/-- Model of `df.sort_values("fiscalDateEnding")`.  The claims only depend on
the result being sorted by date, which any comparison sort gives; an
insertion sort keeps the model kernel-computable. -/
def sortByDate (l : List Row) : List Row := List.insertionSort dateRel l

/-- Model of `df.tail(limit)`: keep the last `limit` rows. -/
def dfTail (l : List Row) (limit : Nat) : List Row := l.drop (l.length - limit)

/-! ### Cache utilities (source lines 113-147) -/

/-- One on-disk cache file: modification time and the result of parsing its
content as JSON (`none` when unparseable). Payloads written by the program
are report arrays, so the parse result is typed as `List Row`. -/
structure CacheFile where
  mtime : Int
  content : Option (List Row)

/-- The cache directory: file name to file, `none` when the file is absent. -/
def CacheFS : Type := String → Option CacheFile

/-- `get_cache_path` (line 113): deterministic file name from the key fields
(the fixed cache-directory prefix is elided, it is common to every path). -/
def get_cache_path (symbol function_name period year : String) : String :=
  symbol ++ "_" ++ function_name ++ "_" ++ period ++ "_" ++ year ++ ".json"

/-- `is_cache_valid` (lines 119-124): the file exists and its modification
age is below the freshness TTL. -/
def is_cache_valid (now : Int) (fs : CacheFS) (path : String) : Bool :=
  match fs path with
  | none => false
  | some f => decide (now - f.mtime < (CACHE_TTL_HOURS : Int) * 3600)

/-- `load_from_cache` (lines 127-137): returns the parsed payload when the
file is valid, `None` otherwise (a parse failure is caught and also yields
`None`).  The second component is the filesystem after the call: reading
never mutates it. -/
def load_from_cache (now : Int) (fs : CacheFS) (symbol function_name period year : String) :
    Option (List Row) × CacheFS :=
  let path := get_cache_path symbol function_name period year
  if is_cache_valid now fs path then
    (match fs path with
     | some f => f.content
     | none => none, fs)
  else
    (none, fs)

/-- `save_to_cache` (lines 140-147): overwrite the file for the key with the
serialized payload, stamped with the current time. -/
def save_to_cache (now : Int) (fs : CacheFS) (symbol function_name period year : String)
    (data : List Row) : CacheFS :=
  fun p =>
    if p = get_cache_path symbol function_name period year then some ⟨now, some data⟩ else fs p

/-! ### Alpha Vantage request classification (source lines 182-204) -/

/-- A decoded 200-status JSON body: the three sentinel fields and the two
report arrays (`data.get(reports_key, [])` yields `[]` when absent, so an
absent array is the empty list). -/
structure AVResponse where
  note : Bool
  errorMessage : Bool
  information : Bool
  annualReports : List Row
  quarterlyReports : List Row

/-- Result of one HTTP call: a decoded body, or a raised transport error
(timeout, connection error, malformed response). -/
inductive RequestOutcome where
  | response : AVResponse → RequestOutcome
  | transportError : String → RequestOutcome

/-- `alpha_vantage_request` (lines 182-204): classify the outcome into
`(data, error)`.  Sentinel fields are checked in source order and each turns
the call into an error; only a sentinel-free body is returned as data. -/
def alpha_vantage_request : RequestOutcome → Option AVResponse × Option String
  | .transportError msg => (none, some msg)
  | .response d =>
    if d.note then (none, some "API rate limit reached. Please wait 60 seconds.")
    else if d.errorMessage then (none, some "Invalid API key or request.")
    else if d.information then (none, some "API request throttled. Please wait.")
    else (some d, none)

/-- The report array the orchestrator extracts (line 348-349). -/
def reportsOf (isQuarter : Bool) (d : AVResponse) : List Row :=
  if isQuarter then d.quarterlyReports else d.annualReports

/-! ### Observable events -/

/-- Observable side effects of one orchestrator run that the claims talk
about: progress-callback values and `time.sleep` calls. -/
inductive Event where
  | progress : ℚ → Event
  | sleep : Nat → Event
deriving DecidableEq

/-- The progress values of a trace, in emission order. -/
def progressValues (trace : List Event) : List ℚ :=
  trace.filterMap fun e =>
    match e with
    | .progress q => some q
    | .sleep _ => none

/-- How many `time.sleep seconds` calls a trace contains. -/
def sleepCount (seconds : Nat) (trace : List Event) : Nat :=
  (trace.filter fun e =>
    match e with
    | .sleep s => s == seconds
    | .progress _ => false).length

/-! ### The per-statement fetch loop (source lines 319-375) -/

/-- Result of the `while retries <= MAX_RETRIES` loop for one statement:
the value assigned to `financials[key]` (`none` when the loop exits without
assigning, which happens only if the retry ceiling is exhausted), the sleep
events performed, the filesystem after any cache write, and the number of
HTTP calls made. -/
structure LoopResult where
  table : Option (List Row)
  events : List Event
  fs : CacheFS
  calls : Nat

/-- The retry loop, recursing on `MAX_RETRIES + 1 - retries` (the number of
iterations the `while retries <= MAX_RETRIES` guard still admits); the
`0` case is the guard failing.  The body mirrors lines 322-375: an error
from `alpha_vantage_request` breaks with an empty table; a body containing
`"Note"` increments `retries`, sleeps `RATE_LIMIT_SLEEP` and continues; an
`"Error Message"` body breaks empty; an empty report array breaks empty;
otherwise the raw reports are cached, then sorted by `fiscalDateEnding` and
truncated to the last `limit` rows (`sort_values` raises when the column is
entirely absent, which the `except` turns into an empty table — after the
cache write, which has already happened). -/
def fetchLoop (isQuarter : Bool) (limit : Nat) (symbol func period year : String)
    (now : Int) (outcomes : Nat → RequestOutcome) :
    Nat → Nat → CacheFS → LoopResult
  | 0, calls, fs => ⟨none, [], fs, calls⟩
  | remaining + 1, calls, fs =>
    match alpha_vantage_request (outcomes calls) with
    | (_, some _) => ⟨some [], [], fs, calls + 1⟩
    | (some d, none) =>
      if d.note then
        let rest := fetchLoop isQuarter limit symbol func period year now outcomes
          remaining (calls + 1) fs
        ⟨rest.table, Event.sleep RATE_LIMIT_SLEEP :: rest.events, rest.fs, rest.calls⟩
      else if d.errorMessage then ⟨some [], [], fs, calls + 1⟩
      else
        let reports := reportsOf isQuarter d
        if reports.isEmpty then ⟨some [], [], fs, calls + 1⟩
        else
          let fs2 := save_to_cache now fs symbol func period year reports
          if reports.any rowHasDate then
            ⟨some (dfTail (sortByDate reports) limit), [], fs2, calls + 1⟩
          else
            ⟨some [], [], fs2, calls + 1⟩
    | (none, none) => ⟨some [], [], fs, calls + 1⟩

/-- Result of processing one statement type (one iteration of the `for`
loop over `function_map`, lines 297-375, before the progress tick). -/
structure ProcResult where
  table : Option (List Row)
  events : List Event
  fs : CacheFS
  wasHit : Bool
  calls : Nat

/-- One statement: consult the cache first (`if cached:` — a `None` result
and an empty list are both falsy and fall through to the API path); on a
hit, sort/truncate when the frame is non-empty and the date column exists,
otherwise keep the raw rows; on a miss, run the retry loop starting from
`retries = 0`. -/
def processStatement (symbol period year : String) (isQuarter : Bool) (limit : Nat)
    (now : Int) (func : String) (outcomes : Nat → RequestOutcome) (fs : CacheFS) : ProcResult :=
  let api : ProcResult :=
    let r := fetchLoop isQuarter limit symbol func period year now outcomes
      (MAX_RETRIES + 1) 0 fs
    ⟨r.table, r.events, r.fs, false, r.calls⟩
  match (load_from_cache now fs symbol func period year).1 with
  | none => api
  | some rows =>
    if rows.isEmpty then api
    else
      let table := if !rows.isEmpty && rows.any rowHasDate then dfTail (sortByDate rows) limit
        else rows
      ⟨some table, [], fs, true, 0⟩

/-- The fixed statement order (line 280-284). -/
def statementFuncs : List (String × String) :=
  [("income_statement", "INCOME_STATEMENT"),
   ("balance_sheet", "BALANCE_SHEET"),
   ("cash_flow", "CASH_FLOW")]

/-- The `for key, func in function_map.items()` loop (lines 297-381):
process each statement, then bump `completed_steps` and emit the progress
tick `(completed_steps / total_steps) * 100` (`total_steps = 3`).  On the
cache-hit path the loop `continue`s after the tick; on the API path it
additionally sleeps `NORMAL_SLEEP` after the tick.  Returns the financials
association list, the event trace, and the per-statement cache-hit flags. -/
def runStatements (symbol period year : String) (isQuarter : Bool) (limit : Nat) (now : Int)
    (outcomes : String → Nat → RequestOutcome) :
    List (String × String) → Nat → CacheFS →
      List (String × List Row) × List Event × List Bool
  | [], _, _ => ([], [], [])
  | (key, func) :: rest, completed, fs =>
    let p := processStatement symbol period year isQuarter limit now func (outcomes func) fs
    let tick : ℚ := (((completed : ℚ) + 1) / 3) * 100
    let evts : List Event :=
      if p.wasHit then [Event.progress tick]
      else p.events ++ [Event.progress tick, Event.sleep NORMAL_SLEEP]
    let r := runStatements symbol period year isQuarter limit now outcomes rest
      (completed + 1) p.fs
    ((match p.table with
      | some t => [(key, t)]
      | none => []) ++ r.1,
     evts ++ r.2.1,
     p.wasHit :: r.2.2)

/-- ASCII model of Python's `str.lower` (the periods compared here are the
ASCII literals `"annual"` / `"quarter"`). -/
def pyLower (s : String) : String := ⟨s.toList.map Char.toLower⟩

/-- `fetch_financial_statements` (lines 258-383).  `year` is
`str(datetime.now().year)`, the cache vintage.  The API key only travels to
the HTTP layer, which the outcome oracle abstracts. -/
def fetch_financial_statements (symbol api_key period : String) (years : Nat) (year : String)
    (now : Int) (outcomes : String → Nat → RequestOutcome) (fs : CacheFS) :
    List (String × List Row) × List Event :=
  let _ := api_key
  let isQuarter := pyLower period == "quarter"
  let limit := if isQuarter then years * 4 else years
  let r := runStatements symbol (pyLower period) year isQuarter limit now outcomes
    statementFuncs 0 fs
  (r.1, r.2.1)

/-- The observable progress/sleep events of `run_analysis_thread`
(lines 681-733): the statement fetches, then the price lookup (which emits
no progress or sleep), then the forced `safe_progress(100)`. -/
def run_analysis_thread_events (symbol api_key period : String) (years : Nat) (year : String)
    (now : Int) (outcomes : String → Nat → RequestOutcome) (fs : CacheFS) : List Event :=
  (fetch_financial_statements symbol api_key period years year now outcomes fs).2
    ++ [Event.progress 100]

/-! ### Year-end price lookup (source lines 389-412) -/

/-- One bar of the fetched daily history: the calendar year of its date,
the position of the date within that year (dates of the same year compare
by it), and the closing price.  The `DatetimeIndex` returned by the
provider has pairwise-distinct dates. -/
structure PriceBar where
  year : Int
  day : Nat
  close : ℚ
deriving DecidableEq

/-- Model of Python's `round(x, 2)`: round to the nearest hundredth (the
half-way tie rule and binary-float representation are below the resolution
of every claim). -/
def round2 (x : ℚ) : ℚ := ((round (x * 100) : ℤ) : ℚ) / 100

/-- `year_data.index.max()` followed by `.loc[...]`: the bar with the
largest date among the given bars. -/
def latestBar : List PriceBar → Option PriceBar
  | [] => none
  | b :: rest =>
    match latestBar rest with
    | none => some b
    | some m => if m.day ≤ b.day then some b else some m

/-- Python dict assignment `d[k] = v`: update in place when the key exists
(keeping its position), otherwise append. -/
def dictInsert (d : List (String × Option ℚ)) (k : String) (v : Option ℚ) :
    List (String × Option ℚ) :=
  if d.any fun kv => kv.1 == k then
    d.map fun kv => if kv.1 == k then (k, v) else kv
  else d ++ [(k, v)]

/-- The body of the `for year in years` loop (lines 401-407): the rounded
close of the latest trading day within `y`, or `None` when the year has no
trading data in the window. -/
def yearClose (hist : List PriceBar) (y : Int) : Option ℚ :=
  match latestBar (hist.filter fun b => b.year == y) with
  | some b => some (round2 b.close)
  | none => none

/-- `fetch_year_end_closing_prices_yf` (lines 389-412): an entirely empty
history returns the empty dict before the per-year loop runs; otherwise
each requested year is assigned its `yearClose`. -/
def fetch_year_end_closing_prices_yf (hist : List PriceBar) (years : List Int) :
    List (String × Option ℚ) :=
  if hist.isEmpty then []
  else years.foldl (fun acc y => dictInsert acc (toString y) (yearClose hist y)) []

/-! ### Input validation (source lines 41-42, 169-176, 629-679) -/

/-- The character class `[A-Z]` of `VALID_SYMBOL_PATTERN`. -/
def isUpperAZ (c : Char) : Bool := decide (65 ≤ c.toNat ∧ c.toNat ≤ 90)

/-- An ASCII lowercase letter `[a-z]`. -/
def isLowerAZ (c : Char) : Bool := decide (97 ≤ c.toNat ∧ c.toNat ≤ 122)

/-- A run matched by `[A-Z]{1,5}`: one to five uppercase letters. -/
def upperRun (s : List Char) : Bool :=
  decide (1 ≤ s.length) && decide (s.length ≤ 5) && s.all isUpperAZ

/-- Model of `re.match(VALID_SYMBOL_PATTERN, s)` as a boolean: the pattern
`^[A-Z]{1,5}$` is anchored at both ends, and Python's `$` matches at the
end of the string or just before a single trailing newline. -/
def validSymbolMatch (s : List Char) : Bool :=
  upperRun s ||
    (match s.getLast? with
     | some c => c == '\n' && upperRun s.dropLast
     | none => false)

/-- `is_valid_symbol` (lines 169-171): uppercase the argument, then match
it against `VALID_SYMBOL_PATTERN`.  `Char.toUpper` is the ASCII model of
Python's `str.upper`; non-ASCII case mapping is outside the model, so the
theorems about this function assume ASCII input. -/
def is_valid_symbol (s : String) : Bool := validSymbolMatch (s.toList.map Char.toUpper)

/-- Modelled from the words of claim C9, for comparison with the source
behaviour: the string "consists of 1 to 5 uppercase letters". -/
def claimedSymbolShape (s : String) : Bool := upperRun s.toList

/-- `validate_years_count` (lines 174-176): `1 <= years <= 50`. -/
def validate_years_count (years : Int) : Bool := decide (1 ≤ years) && decide (years ≤ 50)

/-- ASCII whitespace stripped by Python's `str.strip`. -/
def isSpaceChar (c : Char) : Bool :=
  c == ' ' || c == '\t' || c == '\n' || c == '\r' || c == '\x0b' || c == '\x0c'

/-- ASCII model of Python's `str.strip`. -/
def pyStrip (s : String) : String :=
  ⟨((s.toList.dropWhile isSpaceChar).reverse.dropWhile isSpaceChar).reverse⟩

/-- The pre-flight validation chain of `FinancialDataApp.run_analysis`
(lines 629-679) up to the point where the background thread is started:
`some (symbol, years)` means the run starts with those arguments, `none`
means a validation error was reported and no run starts.  `yearsInput`
abstracts `int(years_entry.get().strip())`: `some n` when the stripped
field is non-empty and parses as the integer `n`, `none` when it is empty
or `int()` raises. -/
def run_analysis_preflight (apiKey symbolInput : String) (yearsInput : Option Int) :
    Option (String × Int) :=
  if apiKey == "" then none
  else
    let symbol : String := ⟨(pyStrip symbolInput).toList.map Char.toUpper⟩
    if symbol == "" then none
    else if !is_valid_symbol symbol then none
    else
      match yearsInput with
      | none => none
      | some years => if !validate_years_count years then none else some (symbol, years)

/-! ### Concrete scenarios used by individual claims -/

/-- Outcome oracle for the rate-limit scenario of claim C1: the first
`MAX_RETRIES` calls answer with the rate-limit sentinel (`"Note"` present),
every later call answers with a successful annual-report payload. -/
def c1Outcomes : Nat → RequestOutcome := fun i =>
  if i < 3 then .response ⟨true, false, false, [], []⟩
  else .response ⟨false, false, false, [[("fiscalDateEnding", "2024-12-31")]], []⟩

/-- Cache state for claim C3: every statement file exists, is fresh at
`now = 0`, and parses as a one-row report array, so all three statements
are served from cache. -/
def hitFS : CacheFS := fun _ => some ⟨0, some [[("fiscalDateEnding", "2024-12-31")]]⟩

/-! ### Invariants quantified over by the claims -/

/-- Every payload stored in the cache is a report array all of whose rows
carry `fiscalDateEnding` — the `StatementRow` invariant of the spec's data
model ("always containing a `fiscalDateEnding` date field"). -/
def FsDated (fs : CacheFS) : Prop :=
  ∀ p f rows, fs p = some f → f.content = some rows → ∀ r ∈ rows, rowHasDate r = true

/-- Every decoded API response carries report rows with `fiscalDateEnding`
(the same `StatementRow` invariant, on the provider side). -/
def OutcomesDated (outcomes : String → Nat → RequestOutcome) : Prop :=
  ∀ func i d, outcomes func i = .response d →
    (∀ r ∈ d.annualReports, rowHasDate r = true) ∧
    (∀ r ∈ d.quarterlyReports, rowHasDate r = true)

/-- A table ordered ascending by the `fiscalDateEnding` field. -/
def datePairwise (t : List Row) : Prop :=
  List.Pairwise (fun a b => (rowDate a).getD "" ≤ (rowDate b).getD "") t

instance : IsTotal Row dateRel where
  total := by
    intro a b
    unfold dateRel dateLe
    cases hda : rowDate a <;> cases hdb : rowDate b <;> simp
    exact le_total _ _

instance : IsTrans Row dateRel where
  trans := by
    intro a b c
    unfold dateRel dateLe
    cases hda : rowDate a <;> cases hdb : rowDate b <;> cases hdc : rowDate c <;> simp
    exact fun h1 h2 => le_trans h1 h2

/-! ## Theorems -/

/-! ### Claim C4 — cache get semantics -/

/-- C4: `load_from_cache` returns a stored payload exactly when a file for
the key exists, its modification age is below `CACHE_TTL_HOURS`, and its
content parses as JSON; a missing, stale, or unparseable file yields the
absent marker, and the call never mutates the filesystem (in particular a
stale file is not deleted). -/
theorem c4_load_from_cache_spec (now : Int) (fs : CacheFS)
    (symbol function_name period year : String) :
    (∀ d, (load_from_cache now fs symbol function_name period year).1 = some d ↔
      ∃ f, fs (get_cache_path symbol function_name period year) = some f
        ∧ now - f.mtime < (CACHE_TTL_HOURS : Int) * 3600
        ∧ f.content = some d)
    ∧ (load_from_cache now fs symbol function_name period year).2 = fs := by
  constructor
  · intro d
    unfold load_from_cache is_cache_valid
    cases hfile : fs (get_cache_path symbol function_name period year) with
    | none => simp [hfile]
    | some f =>
      by_cases hage : now - f.mtime < (CACHE_TTL_HOURS : Int) * 3600
      · simp [hfile, hage]
      · simp [hfile, hage]
  · unfold load_from_cache
    dsimp only
    split <;> rfl

/-! ### Claim C5 — cache round-trip -/

/-- C5: writing a payload for a key and reading the same key back within
the freshness TTL (with no intervening write or prune) returns exactly the
stored payload — the raw pre-truncation report array. -/
theorem c5_cache_roundtrip (writeTime readTime : Int) (fs : CacheFS)
    (symbol function_name period year : String) (data : List Row)
    (h : readTime - writeTime < (CACHE_TTL_HOURS : Int) * 3600) :
    (load_from_cache readTime (save_to_cache writeTime fs symbol function_name period year data)
      symbol function_name period year).1 = some data := by
  have hpath : save_to_cache writeTime fs symbol function_name period year data
      (get_cache_path symbol function_name period year) = some ⟨writeTime, some data⟩ := by
    unfold save_to_cache
    rw [if_pos rfl]
  unfold load_from_cache is_cache_valid
  simp only [hpath]
  rw [if_pos (by simpa using h)]

/-- Witness for C5 at a concrete key, payload and pair of times. -/
theorem c5_cache_roundtrip_witness :
    (load_from_cache 5 (save_to_cache 0 (fun _ => none) "AAPL" "INCOME_STATEMENT" "annual" "2026"
      [[("fiscalDateEnding", "2024-12-31"), ("netIncome", "7")]])
      "AAPL" "INCOME_STATEMENT" "annual" "2026").1
      = some [[("fiscalDateEnding", "2024-12-31"), ("netIncome", "7")]] :=
  c5_cache_roundtrip 0 5 (fun _ => none) "AAPL" "INCOME_STATEMENT" "annual" "2026"
    [[("fiscalDateEnding", "2024-12-31"), ("netIncome", "7")]] (by decide)

/-! ### Claim C10 — year-count validation -/

/-- C10: `validate_years_count` accepts an integer exactly when it lies in
`[1, 50]`, and every run started by the pre-flight check of `run_analysis`
carries a year count in that range — an out-of-range count is rejected
before the run starts. -/
theorem c10_years_range :
    (∀ n : Int, validate_years_count n = true ↔ 1 ≤ n ∧ n ≤ 50)
    ∧ ∀ apiKey symbolInput yearsInput s n,
        run_analysis_preflight apiKey symbolInput yearsInput = some (s, n) →
          1 ≤ n ∧ n ≤ 50 := by
  have hv : ∀ n : Int, validate_years_count n = true ↔ 1 ≤ n ∧ n ≤ 50 := by
    intro n
    simp [validate_years_count]
  refine ⟨hv, ?_⟩
  intro apiKey symbolInput yearsInput s n h
  unfold run_analysis_preflight at h
  dsimp only at h
  split at h
  · exact absurd h (by simp)
  split at h
  · exact absurd h (by simp)
  split at h
  · exact absurd h (by simp)
  split at h
  · exact absurd h (by simp)
  rename_i years
  split at h
  · exact absurd h (by simp)
  rename_i hval
  simp only [Option.some.injEq, Prod.mk.injEq] at h
  obtain ⟨-, rfl⟩ := h
  simp only [Bool.not_eq_true'] at hval
  exact (hv years).mp (by simpa using hval)

/-- Witness for C10: the pre-flight check at a concrete accepted input. -/
theorem c10_years_range_witness : 1 ≤ (10 : Int) ∧ (10 : Int) ≤ 50 :=
  c10_years_range.2 "K" " aapl " (some 10) "AAPL" 10 (by decide)

/-! ### Claim C9 — symbol validation -/

theorem toNat_ofNat_valid {n : Nat} (h : n.isValidChar) : (Char.ofNat n).toNat = n := by
  rw [Char.ofNat, dif_pos h]
  rfl

theorem isUpperAZ_toUpper (c : Char) :
    isUpperAZ c.toUpper = (isUpperAZ c || isLowerAZ c) := by
  unfold Char.toUpper
  dsimp only
  by_cases h : c.toNat ≥ 97 ∧ c.toNat ≤ 122
  · rw [if_pos h]
    have hv : (c.toNat - 32).isValidChar := Or.inl (by omega)
    simp only [isUpperAZ, isLowerAZ, toNat_ofNat_valid hv, ← Bool.decide_or,
      decide_eq_decide]
    omega
  · rw [if_neg h]
    simp only [isUpperAZ, isLowerAZ, ← Bool.decide_or, decide_eq_decide]
    omega

theorem toUpper_eq_newline {c : Char} (h : c.toUpper = '\n') : c = '\n' := by
  by_cases hl : c.toNat ≥ 97 ∧ c.toNat ≤ 122
  · exfalso
    unfold Char.toUpper at h
    dsimp only at h
    rw [if_pos hl] at h
    have h10 : (Char.ofNat (c.toNat - 32)).toNat = c.toNat - 32 :=
      toNat_ofNat_valid (Or.inl (by omega))
    have h2 := congrArg Char.toNat h
    rw [h10, (by decide : ('\n').toNat = 10)] at h2
    omega
  · unfold Char.toUpper at h
    dsimp only at h
    rwa [if_neg hl] at h

/-- C9, stated as frozen, is false: `is_valid_symbol` uppercases its
argument before matching, so the all-lowercase string `"aapl"` is accepted
even though it does not consist of uppercase letters. -/
theorem c9_counterexample :
    is_valid_symbol "aapl" = true ∧ claimedSymbolShape "aapl" = false := by decide

/-- C9 (amended): on ASCII input, `is_valid_symbol` accepts a string
exactly when it consists of 1 to 5 letters of either case — uppercasing
happens before the match — optionally followed by one trailing newline
(Python's `$` matches just before a final newline).  The ASCII hypothesis
scopes the claim to where `Char.toUpper` agrees with `str.upper`. -/
theorem c9_symbol_validation (s : String) (hascii : ∀ c ∈ s.toList, c.toNat ≤ 127) :
    is_valid_symbol s = true ↔
      ∃ core : List Char, (s.toList = core ∨ s.toList = core ++ ['\n'])
        ∧ 1 ≤ core.length ∧ core.length ≤ 5
        ∧ core.all (fun c => isUpperAZ c || isLowerAZ c) = true := by
  clear hascii
  unfold is_valid_symbol validSymbolMatch
  constructor
  · intro h
    rcases Bool.or_eq_true .. ▸ h with hrun | hlast
    · refine ⟨s.toList, Or.inl rfl, ?_, ?_, ?_⟩
      · have := (Bool.and_eq_true ..).mp ((Bool.and_eq_true ..).mp hrun).1 |>.1
        simpa using of_decide_eq_true this
      · have := (Bool.and_eq_true ..).mp ((Bool.and_eq_true ..).mp hrun).1 |>.2
        simpa using of_decide_eq_true this
      · have hall := ((Bool.and_eq_true ..).mp hrun).2
        rw [List.all_eq_true] at hall ⊢
        intro c hc
        have := hall (c.toUpper) (List.mem_map_of_mem _ hc)
        rw [isUpperAZ_toUpper] at this
        exact this
    · revert hlast
      cases hg : (s.toList.map Char.toUpper).getLast? with
      | none => simp
      | some c0 =>
        intro hlast
        have hc0 : c0 = '\n' ∧ upperRun (s.toList.map Char.toUpper).dropLast = true := by
          simpa using hlast
        rw [List.getLast?_map] at hg
        cases hsl : s.toList.getLast? with
        | none => rw [hsl] at hg; exact absurd hg (by simp)
        | some cl =>
          rw [hsl] at hg
          have hcl : cl.toUpper = c0 := by simpa using hg
          have hcln : cl = '\n' := toUpper_eq_newline (hc0.1 ▸ hcl)
          have hne : s.toList ≠ [] := by
            intro he
            rw [he] at hsl
            exact absurd hsl (by simp)
          have hdecomp : s.toList = s.toList.dropLast ++ ['\n'] := by
            conv_lhs => rw [← List.dropLast_concat_getLast hne]
            have : s.toList.getLast hne = cl := by
              have := List.getLast?_eq_getLast s.toList hne
              rw [hsl] at this
              exact (Option.some.injEq .. ▸ this).symm
            rw [this, hcln]
          refine ⟨s.toList.dropLast, Or.inr hdecomp, ?_, ?_, ?_⟩
          · have := (Bool.and_eq_true ..).mp ((Bool.and_eq_true ..).mp hc0.2).1 |>.1
            have := of_decide_eq_true this
            simpa using this
          · have := (Bool.and_eq_true ..).mp ((Bool.and_eq_true ..).mp hc0.2).1 |>.2
            have := of_decide_eq_true this
            simpa using this
          · have hall := ((Bool.and_eq_true ..).mp hc0.2).2
            rw [List.all_eq_true] at hall ⊢
            intro c hc
            have hmem : c.toUpper ∈ (s.toList.map Char.toUpper).dropLast := by
              rw [← List.map_dropLast]
              exact List.mem_map_of_mem _ hc
            have := hall _ hmem
            rw [isUpperAZ_toUpper] at this
            exact this
  · rintro ⟨core, hdec | hdec, h1, h5, hall⟩
    · rw [Bool.or_eq_true]
      left
      rw [hdec]
      refine (Bool.and_eq_true ..).mpr ⟨(Bool.and_eq_true ..).mpr ⟨?_, ?_⟩, ?_⟩
      · simpa using h1
      · simpa using h5
      · rw [List.all_eq_true] at hall ⊢
        rintro c hc
        obtain ⟨a, ha, rfl⟩ := List.mem_map.mp hc
        rw [isUpperAZ_toUpper]
        exact hall a ha
    · rw [Bool.or_eq_true]
      right
      rw [hdec, List.map_append]
      have hnl : ['\n'].map Char.toUpper = ['\n'] := by decide
      rw [hnl, List.getLast?_concat, List.dropLast_concat]
      refine (Bool.and_eq_true ..).mpr ⟨by decide, ?_⟩
      refine (Bool.and_eq_true ..).mpr ⟨(Bool.and_eq_true ..).mpr ⟨?_, ?_⟩, ?_⟩
      · simpa using h1
      · simpa using h5
      · rw [List.all_eq_true] at hall ⊢
        rintro c hc
        obtain ⟨a, ha, rfl⟩ := List.mem_map.mp hc
        rw [isUpperAZ_toUpper]
        exact hall a ha

/-- Witness for C9 (amended), applying the characterization at the
concrete lowercase input `"aapl"`. -/
theorem c9_symbol_validation_witness : is_valid_symbol "aapl" = true :=
  (c9_symbol_validation "aapl" (by decide)).mpr
    ⟨['a', 'a', 'p', 'l'], Or.inl (by decide), by decide, by decide, by decide⟩

/-! ### Claims C7 and C8 — year-end price lookup -/

theorem latestBar_spec :
    ∀ l : List PriceBar, l ≠ [] →
      ∃ m, latestBar l = some m ∧ m ∈ l ∧ ∀ b ∈ l, b.day ≤ m.day := by
  intro l
  induction l with
  | nil => intro h; exact absurd rfl h
  | cons b rest ih =>
    intro _
    rcases eq_or_ne rest [] with rfl | hne
    · refine ⟨b, by simp [latestBar], List.mem_cons_self .., ?_⟩
      intro x hx
      rcases List.mem_singleton.mp hx with rfl
      exact Nat.le_refl _
    · obtain ⟨m, hm, hmem, hbound⟩ := ih hne
      simp only [latestBar]
      rw [hm]
      dsimp only
      by_cases hd : m.day ≤ b.day
      · rw [if_pos hd]
        refine ⟨b, rfl, List.mem_cons_self .., ?_⟩
        intro x hx
        rcases List.mem_cons.mp hx with rfl | hx
        · exact Nat.le_refl _
        · exact Nat.le_trans (hbound x hx) hd
      · rw [if_neg hd]
        refine ⟨m, rfl, List.mem_cons_of_mem _ hmem, ?_⟩
        intro x hx
        rcases List.mem_cons.mp hx with rfl | hx
        · omega
        · exact hbound x hx

theorem foldl_dictInsert_eq_map (v : Int → Option ℚ) :
    ∀ (years : List Int) (acc : List (String × Option ℚ)),
      (∀ y ∈ years, ∀ kv ∈ acc, kv.1 ≠ toString y) →
      (years.map toString).Nodup →
      years.foldl (fun acc y => dictInsert acc (toString y) (v y)) acc
        = acc ++ years.map fun y => (toString y, v y) := by
  intro years
  induction years with
  | nil => intro acc _ _; simp
  | cons y0 rest ih =>
    intro acc hdisj hnd
    have hcons : (toString y0 :: rest.map toString).Nodup := by simpa using hnd
    have hnotin : (acc.any fun kv => kv.1 == toString y0) = false := by
      rw [Bool.eq_false_iff]
      intro hany
      obtain ⟨kv, hkv, hbeq⟩ := List.any_eq_true.mp hany
      exact hdisj y0 (List.mem_cons_self ..) kv hkv (by simpa using hbeq)
    have hins : dictInsert acc (toString y0) (v y0) = acc ++ [(toString y0, v y0)] := by
      unfold dictInsert
      rw [hnotin]
      simp
    rw [List.foldl_cons, hins]
    rw [ih (acc ++ [(toString y0, v y0)]) ?_ hcons.of_cons]
    · simp
    · intro y hy kv hkv
      rcases List.mem_append.mp hkv with hkv | hkv
      · exact hdisj y (List.mem_cons_of_mem _ hy) kv hkv
      · rcases List.mem_singleton.mp hkv with rfl
        have h1 := (List.nodup_cons.mp hcons).1
        intro hcontra
        have hc2 : toString y0 = toString y := hcontra
        rw [hc2] at h1
        exact h1 (List.mem_map_of_mem _ hy)

theorem lookup_year_map (v : Int → Option ℚ) :
    ∀ (years : List Int) (y : Int), y ∈ years → (years.map toString).Nodup →
      (years.map fun y' => (toString y', v y')).lookup (toString y) = some (v y) := by
  intro years
  induction years with
  | nil => intro y hy; exact absurd hy (by simp)
  | cons y0 rest ih =>
    intro y hy hnd
    have hcons : (toString y0 :: rest.map toString).Nodup := by simpa using hnd
    by_cases hbeq : (toString y == toString y0) = true
    · have hy0 : y = y0 ∨ y ∈ rest := List.mem_cons.mp hy
      rcases hy0 with rfl | hyr
      · simp [List.lookup, hbeq]
      · exfalso
        have h1 : toString y0 ∉ rest.map toString := (List.nodup_cons.mp hcons).1
        rw [← eq_of_beq hbeq] at h1
        exact h1 (List.mem_map_of_mem _ hyr)
    · have hyr : y ∈ rest := by
        rcases List.mem_cons.mp hy with rfl | hyr
        · exact absurd (beq_self_eq_true (toString y)) hbeq
        · exact hyr
      have hf : (toString y == toString y0) = false := by
        simpa using hbeq
      simp only [List.map_cons, List.lookup, hf]
      exact ih y hyr hcons.of_cons

theorem fetch_prices_eq_map (hist : List PriceBar) (years : List Int) (hne : hist ≠ [])
    (hnd : (years.map toString).Nodup) :
    fetch_year_end_closing_prices_yf hist years
      = years.map fun y' => (toString y', yearClose hist y') := by
  unfold fetch_year_end_closing_prices_yf
  rw [if_neg (by simpa using hne)]
  rw [foldl_dictInsert_eq_map (yearClose hist) years []
    (by intro y' _ kv hkv; exact absurd hkv (by simp)) hnd]
  simp

/-- C7: for every requested year, when the fetched (non-empty) history has
at least one trading day in that year, the price series maps the year to
the rounded closing price of the latest such trading day; a requested year
with no trading data in the window maps to the absent marker `None`. -/
theorem c7_price_lookup (hist : List PriceBar) (years : List Int) (y : Int)
    (hne : hist ≠ []) (hy : y ∈ years) (hnd : (years.map toString).Nodup) :
    ((∀ b ∈ hist, b.year ≠ y) →
      (fetch_year_end_closing_prices_yf hist years).lookup (toString y) = some none)
    ∧ ∀ b₀ ∈ hist, b₀.year = y →
        ∃ m ∈ hist, m.year = y ∧ (∀ b ∈ hist, b.year = y → b.day ≤ m.day) ∧
          (fetch_year_end_closing_prices_yf hist years).lookup (toString y)
            = some (some (round2 m.close)) := by
  have hlook : (fetch_year_end_closing_prices_yf hist years).lookup (toString y)
      = some (yearClose hist y) := by
    rw [fetch_prices_eq_map hist years hne hnd]
    exact lookup_year_map (yearClose hist) years y hy hnd
  constructor
  · intro hno
    rw [hlook]
    have hfilter : hist.filter (fun b => b.year == y) = [] := by
      rw [List.filter_eq_nil_iff]
      intro b hb
      simpa using hno b hb
    unfold yearClose
    rw [hfilter]
    rfl
  · intro b₀ hb₀ hby
    have hfne : hist.filter (fun b => b.year == y) ≠ [] := by
      intro hc
      rw [List.filter_eq_nil_iff] at hc
      exact hc b₀ hb₀ (by simpa using hby)
    obtain ⟨m, hm, hmem, hbound⟩ := latestBar_spec _ hfne
    have hmmem := List.mem_filter.mp hmem
    refine ⟨m, hmmem.1, by simpa using hmmem.2, ?_, ?_⟩
    · intro b hb hbyy
      exact hbound b (List.mem_filter.mpr ⟨hb, by simpa using hbyy⟩)
    · rw [hlook]
      unfold yearClose
      rw [hm]

/-- Witness for C7 at the spec's own example: years {2021, 2022} with
trading data only in 2021 map 2022 to the absent marker. -/
theorem c7_price_lookup_witness :
    (fetch_year_end_closing_prices_yf [⟨2021, 5, 10⟩] [2021, 2022]).lookup
      (toString (2022 : Int)) = some none :=
  (c7_price_lookup [⟨2021, 5, 10⟩] [2021, 2022] 2022 (by decide) (by decide) (by decide)).1
    (by decide)

/-- C8, stated as frozen, is false: for the non-empty requested year list
{2021} and an entirely empty fetched history, the price lookup returns the
empty series — zero entries — rather than one entry per requested year. -/
theorem c8_counterexample :
    ((2021 : Int) :: []) ≠ ([] : List Int)
    ∧ fetch_year_end_closing_prices_yf [] [2021] = [] :=
  ⟨by decide, rfl⟩

/-- C8 (amended): provided the fetched history is non-empty, the price
series has exactly one entry — a price or the absent marker — per year of
the (duplicate-free) requested range, in request order; an entirely empty
history instead yields the empty series. -/
theorem c8_price_series_keys (hist : List PriceBar) (years : List Int)
    (hne : hist ≠ []) (hnd : (years.map toString).Nodup) :
    (fetch_year_end_closing_prices_yf hist years).map Prod.fst = years.map toString := by
  rw [fetch_prices_eq_map hist years hne hnd]
  simp

/-- Witness for C8 (amended) at a concrete history and year range. -/
theorem c8_price_series_keys_witness :
    (fetch_year_end_closing_prices_yf [⟨2021, 5, 10⟩] [2021, 2022]).map Prod.fst
      = [toString (2021 : Int), toString (2022 : Int)] :=
  c8_price_series_keys [⟨2021, 5, 10⟩] [2021, 2022] (by decide) (by decide)

/-! ### Claim C1 — the rate-limit retry that never happens -/

/-- C1: the code contradicts the claimed retry policy.  On a cache miss
whose API responses are `MAX_RETRIES` rate-limit sentinels followed by a
success, the claim promises the successful payload after three 60-second
waits; the code instead makes exactly one HTTP call, performs no rate-limit
sleep, and stores an empty table.  `alpha_vantage_request` classifies a
`"Note"` body as an error, and the orchestrator's `if error: ... break`
(line 328) fires before its own `if "Note" in data:` retry branch
(line 334), which is therefore unreachable. -/
theorem c1_rate_limit_not_retried :
    (processStatement "AAPL" "annual" "2026" false 5 0 "INCOME_STATEMENT" c1Outcomes
      (fun _ => none)).table = some []
    ∧ (processStatement "AAPL" "annual" "2026" false 5 0 "INCOME_STATEMENT" c1Outcomes
      (fun _ => none)).calls = 1
    ∧ sleepCount RATE_LIMIT_SLEEP
      (processStatement "AAPL" "annual" "2026" false 5 0 "INCOME_STATEMENT" c1Outcomes
        (fun _ => none)).events = 0 := by
  refine ⟨?_, ?_, ?_⟩ <;> rfl

/-! ### Claim C3 — the inter-request delay is skipped on cache hits -/

/-- C3, stated as frozen, is false: in a run where all three statements are
served from cache, all three statements are processed (three tables are
returned) yet no `NORMAL_SLEEP` delay at all is imposed — the cache-hit
path `continue`s past the `time.sleep(NORMAL_SLEEP)` at line 381, so the
delay is conditional on taking the API path. -/
theorem c3_counterexample :
    ((fetch_financial_statements "AAPL" "k" "annual" 5 "2026" 0
      (fun _ _ => .transportError "down") hitFS).1).length = 3
    ∧ sleepCount NORMAL_SLEEP
      (fetch_financial_statements "AAPL" "k" "annual" 5 "2026" 0
        (fun _ _ => .transportError "down") hitFS).2 = 0 := by
  refine ⟨?_, ?_⟩ <;> rfl

/-! ### Structure of the fetch loop and the orchestrator -/

theorem sortByDate_pairwise (l : List Row) : List.Pairwise dateRel (sortByDate l) :=
  List.sorted_insertionSort dateRel l

theorem sortByDate_subset (l : List Row) : sortByDate l ⊆ l :=
  (List.perm_insertionSort dateRel l).subset

theorem dfTail_length_le (l : List Row) (limit : Nat) : (dfTail l limit).length ≤ limit := by
  simp only [dfTail, List.length_drop]
  omega

theorem sortTail_props (rows : List Row) (limit : Nat)
    (hdated : ∀ r ∈ rows, rowHasDate r = true) :
    (dfTail (sortByDate rows) limit).length ≤ limit
    ∧ datePairwise (dfTail (sortByDate rows) limit) := by
  refine ⟨dfTail_length_le _ _, ?_⟩
  have hsub : List.Sublist (dfTail (sortByDate rows) limit) (sortByDate rows) :=
    List.drop_sublist _ _
  have hp : List.Pairwise dateRel (dfTail (sortByDate rows) limit) :=
    (sortByDate_pairwise rows).sublist hsub
  have hmem : ∀ r ∈ dfTail (sortByDate rows) limit, rowHasDate r = true := fun r hr =>
    hdated r (sortByDate_subset rows (hsub.subset hr))
  refine hp.imp_of_mem ?_
  intro a b ha hb hab
  obtain ⟨da, hda⟩ := Option.isSome_iff_exists.mp (hmem a ha)
  obtain ⟨db, hdb⟩ := Option.isSome_iff_exists.mp (hmem b hb)
  unfold dateRel dateLe at hab
  rw [hda, hdb] at hab
  rw [hda, hdb]
  simpa using hab

theorem alpha_classify (o : RequestOutcome) :
    (∃ msg, alpha_vantage_request o = (none, some msg)) ∨
    ∃ d, o = .response d ∧ alpha_vantage_request o = (some d, none)
      ∧ d.note = false ∧ d.errorMessage = false := by
  cases o with
  | transportError msg => exact Or.inl ⟨msg, rfl⟩
  | response d =>
    by_cases hn : d.note = true
    · exact Or.inl ⟨"API rate limit reached. Please wait 60 seconds.",
        by simp [alpha_vantage_request, hn]⟩
    · by_cases he : d.errorMessage = true
      · exact Or.inl ⟨"Invalid API key or request.",
          by simp [alpha_vantage_request, hn, he]⟩
      · by_cases hi : d.information = true
        · exact Or.inl ⟨"API request throttled. Please wait.",
            by simp [alpha_vantage_request, hn, he, hi]⟩
        · exact Or.inr ⟨d, rfl, by simp [alpha_vantage_request, hn, he, hi],
            by simpa using hn, by simpa using he⟩

theorem fetchLoop_succ_spec (isQuarter : Bool) (limit : Nat)
    (symbol func period year : String) (now : Int) (outcomes : Nat → RequestOutcome)
    (remaining calls : Nat) (fs : CacheFS) :
    ∃ t fs2,
      fetchLoop isQuarter limit symbol func period year now outcomes
          (remaining + 1) calls fs
        = ⟨some t, [], fs2, calls + 1⟩
      ∧ (t = [] ∨ ∃ d, outcomes calls = .response d
          ∧ t = dfTail (sortByDate (reportsOf isQuarter d)) limit
          ∧ (reportsOf isQuarter d).any rowHasDate = true)
      ∧ (fs2 = fs ∨ ∃ d, outcomes calls = .response d
          ∧ fs2 = save_to_cache now fs symbol func period year (reportsOf isQuarter d)) := by
  rcases alpha_classify (outcomes calls) with ⟨msg, h⟩ | ⟨d, hod, h, hn, he⟩
  · refine ⟨[], fs, ?_, Or.inl rfl, Or.inl rfl⟩
    simp only [fetchLoop]
    rw [h]
  · by_cases hr : (reportsOf isQuarter d).isEmpty = true
    · refine ⟨[], fs, ?_, Or.inl rfl, Or.inl rfl⟩
      simp only [fetchLoop]
      rw [h]
      dsimp only
      simp [hn, he, hr]
    · by_cases hany : (reportsOf isQuarter d).any rowHasDate = true
      · refine ⟨dfTail (sortByDate (reportsOf isQuarter d)) limit,
          save_to_cache now fs symbol func period year (reportsOf isQuarter d), ?_,
          Or.inr ⟨d, hod, rfl, hany⟩, Or.inr ⟨d, hod, rfl⟩⟩
        simp only [fetchLoop]
        rw [h]
        dsimp only
        simp [hn, he, hr, hany]
      · refine ⟨[], save_to_cache now fs symbol func period year (reportsOf isQuarter d), ?_,
          Or.inl rfl, Or.inr ⟨d, hod, rfl⟩⟩
        simp only [fetchLoop]
        rw [h]
        dsimp only
        simp [hn, he, hr, hany]

theorem load_from_cache_sound (now : Int) (fs : CacheFS)
    (symbol func period year : String) (rows : List Row)
    (h : (load_from_cache now fs symbol func period year).1 = some rows) :
    ∃ f, fs (get_cache_path symbol func period year) = some f ∧ f.content = some rows := by
  unfold load_from_cache is_cache_valid at h
  dsimp only at h
  cases hfile : fs (get_cache_path symbol func period year) with
  | none =>
    rw [hfile] at h
    simp at h
  | some f =>
    rw [hfile] at h
    split at h
    · exact ⟨f, rfl, h⟩
    · simp at h

theorem fsDated_save (now : Int) (fs : CacheFS) (symbol func period year : String)
    (data : List Row) (hfs : FsDated fs) (hdata : ∀ r ∈ data, rowHasDate r = true) :
    FsDated (save_to_cache now fs symbol func period year data) := by
  intro p f rows hp hc
  unfold save_to_cache at hp
  by_cases hpe : p = get_cache_path symbol func period year
  · rw [if_pos hpe] at hp
    injection hp with hp
    subst hp
    simp only at hc
    injection hc with hc
    subst hc
    exact hdata
  · rw [if_neg hpe] at hp
    exact hfs p f rows hp hc

theorem reportsOf_dated (isQuarter : Bool) (d : AVResponse)
    (ha : ∀ r ∈ d.annualReports, rowHasDate r = true)
    (hq : ∀ r ∈ d.quarterlyReports, rowHasDate r = true) :
    ∀ r ∈ reportsOf isQuarter d, rowHasDate r = true := by
  unfold reportsOf
  split
  · exact hq
  · exact ha

theorem processStatement_spec (symbol period year : String) (isQuarter : Bool)
    (limit : Nat) (now : Int) (func : String) (outcomes : Nat → RequestOutcome)
    (fs : CacheFS) :
    ∃ t,
      (processStatement symbol period year isQuarter limit now func outcomes fs).table = some t
      ∧ (processStatement symbol period year isQuarter limit now func outcomes fs).events = []
      ∧ (FsDated fs →
          (∀ i d, outcomes i = .response d →
            (∀ r ∈ d.annualReports, rowHasDate r = true) ∧
            (∀ r ∈ d.quarterlyReports, rowHasDate r = true)) →
          t.length ≤ limit ∧ datePairwise t
            ∧ FsDated (processStatement symbol period year isQuarter limit now func
                outcomes fs).fs) := by
  have happly := fetchLoop_succ_spec isQuarter limit symbol func period year now outcomes
    MAX_RETRIES 0 fs
  obtain ⟨ta, fs2, heq, htOr, hfsOr⟩ := happly
  have hcondApi : FsDated fs →
      (∀ i d, outcomes i = .response d →
        (∀ r ∈ d.annualReports, rowHasDate r = true) ∧
        (∀ r ∈ d.quarterlyReports, rowHasDate r = true)) →
      ta.length ≤ limit ∧ datePairwise ta ∧ FsDated fs2 := by
    intro hfs hout
    refine ⟨?_, ?_, ?_⟩
    · rcases htOr with rfl | ⟨d, hod, rfl, -⟩
      · exact Nat.zero_le _
      · exact (sortTail_props _ _ (reportsOf_dated isQuarter d (hout 0 d hod).1
          (hout 0 d hod).2)).1
    · rcases htOr with rfl | ⟨d, hod, rfl, -⟩
      · exact List.Pairwise.nil
      · exact (sortTail_props _ _ (reportsOf_dated isQuarter d (hout 0 d hod).1
          (hout 0 d hod).2)).2
    · rcases hfsOr with rfl | ⟨d, hod, rfl⟩
      · exact hfs
      · exact fsDated_save now fs symbol func period year _ hfs
          (reportsOf_dated isQuarter d (hout 0 d hod).1 (hout 0 d hod).2)
  cases hload : (load_from_cache now fs symbol func period year).1 with
  | none =>
    have hps : processStatement symbol period year isQuarter limit now func outcomes fs
        = ⟨some ta, [], fs2, false, 1⟩ := by
      unfold processStatement
      rw [hload]
      dsimp only
      rw [heq]
    refine ⟨ta, by rw [hps], by rw [hps], ?_⟩
    intro hfs hout
    exact ⟨(hcondApi hfs hout).1, (hcondApi hfs hout).2.1,
      by rw [hps]; exact (hcondApi hfs hout).2.2⟩
  | some rows =>
    by_cases hrows : rows.isEmpty = true
    · have hps : processStatement symbol period year isQuarter limit now func outcomes fs
          = ⟨some ta, [], fs2, false, 1⟩ := by
        unfold processStatement
        rw [hload]
        dsimp only
        rw [if_pos hrows, heq]
      refine ⟨ta, by rw [hps], by rw [hps], ?_⟩
      intro hfs hout
      exact ⟨(hcondApi hfs hout).1, (hcondApi hfs hout).2.1,
        by rw [hps]; exact (hcondApi hfs hout).2.2⟩
    · refine ⟨if !rows.isEmpty && rows.any rowHasDate then dfTail (sortByDate rows) limit
        else rows, ?_, ?_, ?_⟩
      · unfold processStatement
        rw [hload]
        dsimp only
        rw [if_neg hrows]
      · unfold processStatement
        rw [hload]
        dsimp only
        rw [if_neg hrows]
      · intro hfs hout
        have hdated : ∀ r ∈ rows, rowHasDate r = true := by
          obtain ⟨f, hf, hc⟩ := load_from_cache_sound now fs symbol func period year rows hload
          exact fun r hr => hfs _ f rows hf hc r hr
        have hanytrue : rows.any rowHasDate = true := by
          cases rows with
          | nil => exact absurd rfl hrows
          | cons r rs =>
            exact List.any_eq_true.mpr ⟨r, List.mem_cons_self .., hdated r (List.mem_cons_self ..)⟩
        have hfalse : rows.isEmpty = false := by
          simpa using hrows
        have hcond : (!rows.isEmpty && rows.any rowHasDate) = true := by
          simp [hfalse, hanytrue]
        rw [hcond]
        simp only [if_true]
        refine ⟨(sortTail_props rows limit hdated).1, (sortTail_props rows limit hdated).2, ?_⟩
        unfold processStatement
        rw [hload]
        dsimp only
        rw [if_neg hrows]
        exact hfs

theorem progressValues_append (a b : List Event) :
    progressValues (a ++ b) = progressValues a ++ progressValues b := by
  simp [progressValues]

theorem sleepCount_append (s : Nat) (a b : List Event) :
    sleepCount s (a ++ b) = sleepCount s a + sleepCount s b := by
  simp [sleepCount]

theorem runStatements_spec (symbol period year : String) (isQuarter : Bool) (limit : Nat)
    (now : Int) (outcomes : String → Nat → RequestOutcome) :
    ∀ (l : List (String × String)) (completed : Nat) (fs : CacheFS),
      ((runStatements symbol period year isQuarter limit now outcomes l completed fs).1.map
          Prod.fst = l.map Prod.fst)
      ∧ progressValues
          (runStatements symbol period year isQuarter limit now outcomes l completed fs).2.1
        = (List.range l.length).map (fun i : Nat => (((completed : ℚ) + (i : ℚ) + 1) / 3) * 100)
      ∧ sleepCount NORMAL_SLEEP
          (runStatements symbol period year isQuarter limit now outcomes l completed fs).2.1
        = ((runStatements symbol period year isQuarter limit now outcomes l
            completed fs).2.2).count false
      ∧ (FsDated fs → OutcomesDated outcomes →
          ∀ k t, (k, t) ∈ (runStatements symbol period year isQuarter limit now outcomes l
              completed fs).1 →
            t.length ≤ limit ∧ datePairwise t) := by
  intro l
  induction l with
  | nil =>
    intro completed fs
    refine ⟨rfl, by simp [runStatements, progressValues], by simp [runStatements, sleepCount], ?_⟩
    intro _ _ k t hkt
    simp [runStatements] at hkt
  | cons hd rest ih =>
    intro completed fs
    obtain ⟨key, func⟩ := hd
    obtain ⟨t, ht, hev, hcond⟩ :=
      processStatement_spec symbol period year isQuarter limit now func (outcomes func) fs
    have hunfold :
        runStatements symbol period year isQuarter limit now outcomes
            ((key, func) :: rest) completed fs
          = (((key, t) ::
              (runStatements symbol period year isQuarter limit now outcomes rest
                (completed + 1)
                (processStatement symbol period year isQuarter limit now func
                  (outcomes func) fs).fs).1),
             ((if (processStatement symbol period year isQuarter limit now func
                  (outcomes func) fs).wasHit then
                 [Event.progress ((((completed : ℚ) + 1) / 3) * 100)]
               else
                 [Event.progress ((((completed : ℚ) + 1) / 3) * 100),
                  Event.sleep NORMAL_SLEEP]) ++
              (runStatements symbol period year isQuarter limit now outcomes rest
                (completed + 1)
                (processStatement symbol period year isQuarter limit now func
                  (outcomes func) fs).fs).2.1,
              (processStatement symbol period year isQuarter limit now func
                (outcomes func) fs).wasHit ::
              (runStatements symbol period year isQuarter limit now outcomes rest
                (completed + 1)
                (processStatement symbol period year isQuarter limit now func
                  (outcomes func) fs).fs).2.2)) := by
      simp only [runStatements]
      rw [ht, hev]
      simp
    set p := processStatement symbol period year isQuarter limit now func (outcomes func) fs
      with hp
    have ihr := ih (completed + 1) p.fs
    refine ⟨?_, ?_, ?_, ?_⟩
    · rw [hunfold]
      simpa using ihr.1
    · rw [hunfold]
      have hpv : progressValues
          (if p.wasHit then
            [Event.progress ((((completed : ℚ) + 1) / 3) * 100)]
          else
            [Event.progress ((((completed : ℚ) + 1) / 3) * 100), Event.sleep NORMAL_SLEEP])
          = [(((completed : ℚ) + 1) / 3) * 100] := by
        cases p.wasHit <;> simp [progressValues]
      dsimp only
      rw [progressValues_append, hpv, ihr.2.1]
      simp only [List.length_cons]
      rw [List.range_succ_eq_map, List.map_cons, List.map_map]
      simp only [List.singleton_append]
      refine List.cons_eq_cons.mpr ⟨by norm_num, ?_⟩
      refine List.map_congr_left fun i _ => ?_
      simp only [Function.comp_apply]
      push_cast
      ring
    · rw [hunfold]
      dsimp only
      rw [sleepCount_append, ihr.2.2.1, List.count_cons]
      have hsc : sleepCount NORMAL_SLEEP
          (if p.wasHit then
            [Event.progress ((((completed : ℚ) + 1) / 3) * 100)]
          else
            [Event.progress ((((completed : ℚ) + 1) / 3) * 100), Event.sleep NORMAL_SLEEP])
          = if p.wasHit then 0 else 1 := by
        cases p.wasHit <;> simp [sleepCount]
      rw [hsc]
      cases p.wasHit <;> simp <;> omega
    · intro hfs hout
      have hcond2 := hcond hfs (hout func)
      intro k tk hkt
      rw [hunfold] at hkt
      rcases List.mem_cons.mp hkt with heq2 | hkt2
      · obtain ⟨rfl, rfl⟩ := Prod.mk.injEq .. ▸ heq2
        exact ⟨hcond2.1, hcond2.2.1⟩
      · exact (ihr.2.2.2 hcond2.2.2 hout) k tk hkt2

/-! ### Claim C2 — shape of the financials result -/

/-- C2: for every input and every cache/API environment satisfying the
spec's `StatementRow` invariant (every report row carries
`fiscalDateEnding`), the mapping returned by `fetch_financial_statements`
has exactly the 3 keys `income_statement`, `balance_sheet` and `cash_flow`
— in that order, regardless of fetch outcome — and each value is ordered
ascending by `fiscalDateEnding` with length at most the requested limit
(`years` for annual, `years * 4` for quarterly). -/
theorem c2_financials_shape (symbol api_key period year : String) (years : Nat) (now : Int)
    (outcomes : String → Nat → RequestOutcome) (fs : CacheFS)
    (hfs : FsDated fs) (hout : OutcomesDated outcomes) :
    ((fetch_financial_statements symbol api_key period years year now outcomes fs).1.map
        Prod.fst = ["income_statement", "balance_sheet", "cash_flow"])
    ∧ ∀ k t,
        (k, t) ∈ (fetch_financial_statements symbol api_key period years year now
            outcomes fs).1 →
          t.length ≤ (if pyLower period == "quarter" then years * 4 else years)
          ∧ datePairwise t := by
  have h := runStatements_spec symbol (pyLower period) year (pyLower period == "quarter")
    (if pyLower period == "quarter" then years * 4 else years) now outcomes
    statementFuncs 0 fs
  unfold fetch_financial_statements
  dsimp only
  constructor
  · rw [h.1]
    rfl
  · intro k t hkt
    exact h.2.2.2 hfs hout k t hkt

/-- Witness for C2 at a concrete input: an empty cache and an environment
whose every request fails in transport (so every table degrades to empty),
for which the result still carries exactly the three statement keys. -/
theorem c2_financials_shape_witness :
    (fetch_financial_statements "AAPL" "k" "annual" 5 "2026" 0
      (fun _ _ => .transportError "down") (fun _ => none)).1.map Prod.fst
      = ["income_statement", "balance_sheet", "cash_flow"] :=
  (c2_financials_shape "AAPL" "k" "annual" "2026" 5 0 (fun _ _ => .transportError "down")
    (fun _ => none)
    (fun _ _ _ hp _ => Option.noConfusion hp)
    (fun _ _ _ hd => RequestOutcome.noConfusion hd)).1

/-! ### Claim C3 (amended) — where the inter-request delay really happens -/

/-- C3 (amended): across the orchestrator's statement loop, the number of
`NORMAL_SLEEP` delays equals the number of statements that were *not*
served from cache — the delay follows exactly the API-path statements,
while cache hits `continue` past it. -/
theorem c3_normal_sleep_on_miss_only (symbol period year : String) (isQuarter : Bool)
    (limit : Nat) (now : Int) (outcomes : String → Nat → RequestOutcome)
    (l : List (String × String)) (completed : Nat) (fs : CacheFS) :
    sleepCount NORMAL_SLEEP
        (runStatements symbol period year isQuarter limit now outcomes l completed fs).2.1
      = ((runStatements symbol period year isQuarter limit now outcomes l
          completed fs).2.2).count false :=
  (runStatements_spec symbol period year isQuarter limit now outcomes l completed fs).2.2.1

/-! ### Claim C6 — progress monotonicity -/

/-- C6: across one analysis run — whatever the cache and API environment do
— the sequence of values reported through the progress callback is
non-decreasing, and the final reported value is exactly 100 (forced after
the price lookup completes). -/
theorem c6_progress_monotone (symbol api_key period year : String) (years : Nat) (now : Int)
    (outcomes : String → Nat → RequestOutcome) (fs : CacheFS) :
    List.Chain' (· ≤ ·)
      (progressValues
        (run_analysis_thread_events symbol api_key period years year now outcomes fs))
    ∧ (progressValues
        (run_analysis_thread_events symbol api_key period years year now
          outcomes fs)).getLast? = some 100 := by
  have h := (runStatements_spec symbol (pyLower period) year (pyLower period == "quarter")
    (if pyLower period == "quarter" then years * 4 else years) now outcomes
    statementFuncs 0 fs).2.1
  have hpv : progressValues
      (run_analysis_thread_events symbol api_key period years year now outcomes fs)
      = [100 / 3, 200 / 3, 100, 100] := by
    unfold run_analysis_thread_events fetch_financial_statements
    dsimp only
    rw [progressValues_append, h]
    have h100 : progressValues [Event.progress 100] = [100] := rfl
    have hr3 : List.range statementFuncs.length = [0, 1, 2] := rfl
    rw [h100, hr3]
    norm_num
  rw [hpv]
  refine ⟨?_, by rfl⟩
  norm_num [List.chain'_cons]

end FinData
